import Mathlib

/-!
Verification development for the RAG utility (`src/rag.ts`).

Modelling conventions, fixed once for the whole file:

* JavaScript numbers are modelled exactly.  Every finite IEEE-754 double is
  a rational number, so stored values, embedding vectors and all arithmetic
  that the source performs with `+`/`*` on data read from JSON are carried
  out in `ℚ`; the only genuinely irrational step, `Math.sqrt` inside the
  cosine, is modelled with `Real.sqrt`, so the similarity score lives in
  `ℝ`.  `NaN` (which `Number(v)` produces on non-numeric input) is
  represented by `none` in `JsNum := Option ℚ`; rounding, overflow and
  `Infinity` are outside the model.
* A parsed JSON document (the contents of the store file after
  `JSON.parse`, or before `JSON.stringify`) is the inductive `Json`.
  `Json.obj` carries the object's fields in insertion order with distinct
  keys, which is what `JSON.parse` yields.  The textual layer
  (`JSON.stringify`'s indentation, decimal rendering of doubles) is not
  re-modelled: writing and reading the store file are related at the level
  of these trees.  `JSON.parse` applied to a string embedded in the data
  (the double-encoded `metadata` case) is modelled by the executable
  parser `jsonParse` below.
* External services (PDF loader, text splitter, embedding model, chat
  model) are parameters of the pipeline functions, exactly as the spec
  declares them out of scope.
-/

/-- Json value tree, the result of `JSON.parse` / the input of
`JSON.stringify`.  Numbers are exact rationals (finite doubles). -/
inductive Json where
  | null : Json
  | bool : Bool → Json
  | num : ℚ → Json
  | str : String → Json
  | arr : List Json → Json
  | obj : List (String × Json) → Json

/-- A JavaScript number: `some q` is the finite double `q`, `none` is `NaN`. -/
abbrev JsNum := Option ℚ

/-- Value of `Number(v) || 0` : `NaN` (and `0` itself, and `-0`) all give `0`. -/
def numOr0 (x : JsNum) : ℚ := x.getD 0

/-- Decimal string-to-number conversion used by JavaScript's `Number` on
strings: whitespace-only strings give `0`, decimal literals (optional sign,
digits, optional fractional part, optional exponent) give their value, and
anything else gives `NaN` (`none`).  Hexadecimal/octal/binary literals and
`Infinity`, which cannot occur in the store files this program writes, are
not modelled and fall to `NaN`. -/
def digitsToNat (ds : List Char) : ℕ :=
  ds.foldl (fun a c => a * 10 + (c.toNat - '0'.toNat)) 0

/-- Whitespace for JavaScript's `trim` and `\s`: the WhiteSpace and
LineTerminator code points of the ECMAScript standard. -/
def isJsWs (c : Char) : Bool :=
  c = ' ' || c = '\t' || c = '\n' || c = '\r' ||
  c.toNat = 0x0b || c.toNat = 0x0c || c.toNat = 0xa0 || c.toNat = 0x1680 ||
  (0x2000 <= c.toNat && c.toNat <= 0x200a) || c.toNat = 0x2028 || c.toNat = 0x2029 ||
  c.toNat = 0x202f || c.toNat = 0x205f || c.toNat = 0x3000 || c.toNat = 0xfeff

/-- Parse the body of a decimal numeric literal (after the optional sign):
`digits [. digits] [(e|E) [sign] digits]`, returning its exact value. -/
def parseDecBody (l : List Char) : Option ℚ :=
  let intPart := l.takeWhile Char.isDigit
  let rest1 := l.dropWhile Char.isDigit
  let (fracPart, rest2) :=
    match rest1 with
    | '.' :: r => (r.takeWhile Char.isDigit, r.dropWhile Char.isDigit)
    | _ => ([], rest1)
  if intPart = [] ∧ fracPart = [] then none
  else
    let base : ℚ := (digitsToNat intPart : ℚ) +
      (digitsToNat fracPart : ℚ) / ((10 : ℚ) ^ fracPart.length)
    match rest2 with
    | [] => some base
    | 'e' :: r => parseExp base r
    | 'E' :: r => parseExp base r
    | _ => none
where
  parseExp (base : ℚ) (r : List Char) : Option ℚ :=
    let (neg, r') := match r with
      | '-' :: t => (true, t)
      | '+' :: t => (false, t)
      | t => (false, t)
    if r' ≠ [] ∧ r' = r'.takeWhile Char.isDigit then
      let e : ℤ := if neg then -(digitsToNat r' : ℤ) else (digitsToNat r' : ℤ)
      some (base * (10 : ℚ) ^ e)
    else none

/-- `Number` applied to a string (decimal literals only, see above). -/
def jsStrToNum (s : String) : JsNum :=
  let t := (s.toList.dropWhile isJsWs).reverse.dropWhile isJsWs |>.reverse
  match t with
  | [] => some 0
  | '-' :: r => (parseDecBody r).map (fun q => -q)
  | '+' :: r => parseDecBody r
  | r => parseDecBody r

/-- JavaScript's `Number(v)` on a JSON value: `none` is `NaN`.  `null` gives
`0`, booleans give `0`/`1`, a one-element array coerces through its element
(via its string form, so a boolean element gives `NaN`), other arrays give
`0` (empty) or `NaN`, and plain objects give `NaN`. -/
def jsNumber : Json → JsNum
  | .null => some 0
  | .bool b => some (if b then 1 else 0)
  | .num q => some q
  | .str s => jsStrToNum s
  | .arr [] => some 0
  | .arr [.bool _] => none
  | .arr [x] => jsNumber x
  | .arr (_ :: _ :: _) => none
  | .obj _ => none

/-- Truthiness of a JSON value as a JavaScript value: `null`, `false`, `0`
and `""` are falsy; every array and object (even empty) is truthy. -/
def jsTruthy : Json → Bool
  | .null => false
  | .bool b => b
  | .num q => q ≠ 0
  | .str s => s ≠ ""
  | .arr _ => true
  | .obj _ => true

/-- Whitespace accepted between JSON tokens by `JSON.parse`. -/
def isJsonWs (c : Char) : Bool := c = ' ' || c = '\t' || c = '\n' || c = '\r'

/-- Value of one hexadecimal digit. -/
def hexVal (c : Char) : Option ℕ :=
  if '0' ≤ c ∧ c ≤ '9' then some (c.toNat - '0'.toNat)
  else if 'a' ≤ c ∧ c ≤ 'f' then some (c.toNat - 'a'.toNat + 10)
  else if 'A' ≤ c ∧ c ≤ 'F' then some (c.toNat - 'A'.toNat + 10)
  else none

/-- Parse the body of a JSON string (the opening quote already consumed),
returning the decoded characters and the input after the closing quote. -/
def parseStrBody : ℕ → List Char → Except String (List Char × List Char)
  | 0, _ => .error "out of fuel"
  | _ + 1, [] => .error "unterminated string"
  | fuel + 1, c :: rest =>
    if c = '"' then .ok ([], rest)
    else if c = '\\' then
      match rest with
      | 'u' :: h1 :: h2 :: h3 :: h4 :: r =>
        match hexVal h1, hexVal h2, hexVal h3, hexVal h4 with
        | some a, some b, some c2, some d => do
          let (s, r2) ← parseStrBody fuel r
          .ok (Char.ofNat (((a * 16 + b) * 16 + c2) * 16 + d) :: s, r2)
        | _, _, _, _ => .error "bad unicode escape"
      | e :: r =>
        let esc : Option Char :=
          if e = '"' then some '"' else if e = '\\' then some '\\'
          else if e = '/' then some '/' else if e = 'b' then some '\x08'
          else if e = 'f' then some '\x0c' else if e = 'n' then some '\n'
          else if e = 'r' then some '\r' else if e = 't' then some '\t' else none
        match esc with
        | some ch => do
          let (s, r2) ← parseStrBody fuel r
          .ok (ch :: s, r2)
        | none => .error "bad escape"
      | [] => .error "unterminated escape"
    else do
      let (s, r2) ← parseStrBody fuel rest
      .ok (c :: s, r2)

/-- Parse the exponent tail of a JSON number (after the `e`/`E`). -/
def parseExpTail (t : List Char) : Except String (ℤ × List Char) :=
  let (neg, t1) := match t with
    | '-' :: u => (true, u)
    | '+' :: u => (false, u)
    | u => (false, u)
  let ds := t1.takeWhile Char.isDigit
  if ds = [] then .error "bad exponent"
  else .ok ((if neg then -(digitsToNat ds : ℤ) else (digitsToNat ds : ℤ)),
    t1.dropWhile Char.isDigit)

/-- Attach fraction and exponent to the integer part of a JSON number. -/
def finishNumber (neg : Bool) (intPart fracPart r2 : List Char) :
    Except String (ℚ × List Char) :=
  let base : ℚ := (digitsToNat intPart : ℚ) +
    (digitsToNat fracPart : ℚ) / (10 : ℚ) ^ fracPart.length
  let signed := if neg then -base else base
  match r2 with
  | 'e' :: t => (parseExpTail t).map (fun p => (signed * (10 : ℚ) ^ p.1, p.2))
  | 'E' :: t => (parseExpTail t).map (fun p => (signed * (10 : ℚ) ^ p.1, p.2))
  | _ => .ok (signed, r2)

/-- Parse a JSON number token: `-? (0 | [1-9][0-9]*) (. [0-9]+)? ([eE][+-]?[0-9]+)?`. -/
def parseJsonNumber (l : List Char) : Except String (ℚ × List Char) :=
  let (neg, l1) := match l with
    | '-' :: t => (true, t)
    | t => (false, t)
  let intPart := l1.takeWhile Char.isDigit
  let r1 := l1.dropWhile Char.isDigit
  if intPart = [] then .error "bad number"
  else if 1 < intPart.length ∧ intPart.headD 'x' = '0' then .error "leading zero"
  else
    match r1 with
    | '.' :: t =>
      let fracPart := t.takeWhile Char.isDigit
      if fracPart = [] then .error "bad fraction"
      else finishNumber neg intPart fracPart (t.dropWhile Char.isDigit)
    | _ => finishNumber neg intPart [] r1

/-- Replace the value of a key in an association list in place, or append the
binding: how a repeated key behaves in a JavaScript object. -/
def upsert : List (String × Json) → String → Json → List (String × Json)
  | [], k, v => [(k, v)]
  | (k2, v2) :: t, k, v => if k2 = k then (k, v) :: t else (k2, v2) :: upsert t k v

mutual

/-- Parse one JSON value, returning it and the remaining input.  Fuel-driven
model of `JSON.parse`'s recursive-descent grammar. -/
def parseJsonVal : ℕ → List Char → Except String (Json × List Char)
  | 0, _ => .error "out of fuel"
  | fuel + 1, l =>
    match l.dropWhile isJsonWs with
    | [] => .error "unexpected end of input"
    | c :: rest =>
      if c = 'n' then
        match rest with
        | 'u' :: 'l' :: 'l' :: r => .ok (.null, r)
        | _ => .error "bad literal"
      else if c = 't' then
        match rest with
        | 'r' :: 'u' :: 'e' :: r => .ok (.bool true, r)
        | _ => .error "bad literal"
      else if c = 'f' then
        match rest with
        | 'a' :: 'l' :: 's' :: 'e' :: r => .ok (.bool false, r)
        | _ => .error "bad literal"
      else if c = '"' then
        (parseStrBody (fuel + 1) rest).map (fun p => (.str (String.mk p.1), p.2))
      else if c = '[' then
        match rest.dropWhile isJsonWs with
        | ']' :: r => .ok (.arr [], r)
        | _ => parseArrItems fuel rest []
      else if c = '\x7b' then
        match rest.dropWhile isJsonWs with
        | '\x7d' :: r => .ok (.obj [], r)
        | _ => parseObjItems fuel rest []
      else if c = '-' ∨ c.isDigit then
        (parseJsonNumber (c :: rest)).map (fun p => (.num p.1, p.2))
      else .error "unexpected character"

/-- Parse the elements of a non-empty JSON array (after the bracket). -/
def parseArrItems : ℕ → List Char → List Json → Except String (Json × List Char)
  | 0, _, _ => .error "out of fuel"
  | fuel + 1, l, acc => do
    let (v, r) ← parseJsonVal fuel l
    match r.dropWhile isJsonWs with
    | ',' :: r2 => parseArrItems fuel r2 (v :: acc)
    | ']' :: r2 => .ok (.arr (v :: acc).reverse, r2)
    | _ => .error "expected comma or bracket"

/-- Parse the members of a non-empty JSON object (after the brace). -/
def parseObjItems : ℕ → List Char → List (String × Json) →
    Except String (Json × List Char)
  | 0, _, _ => .error "out of fuel"
  | fuel + 1, l, acc =>
    match l.dropWhile isJsonWs with
    | '"' :: r => do
      let (k, r1) ← parseStrBody (fuel + 1) r
      match r1.dropWhile isJsonWs with
      | ':' :: r2 => do
        let (v, r3) ← parseJsonVal fuel r2
        match r3.dropWhile isJsonWs with
        | ',' :: r4 => parseObjItems fuel r4 (upsert acc (String.mk k) v)
        | '\x7d' :: r4 => .ok (.obj (upsert acc (String.mk k) v), r4)
        | _ => .error "expected comma or brace"
      | _ => .error "expected colon"
    | _ => .error "expected key"

end

/-- Model of `JSON.parse`: parse one value, allow trailing whitespace only. -/
def jsonParse (s : String) : Except String Json := do
  let (v, r) ← parseJsonVal (s.length + 1) s.toList
  if r.dropWhile isJsonWs = [] then .ok v else .error "unexpected trailing characters"

/-- Drop JavaScript whitespace from both ends of a character list. -/
def trimList (l : List Char) : List Char :=
  ((l.dropWhile isJsWs).reverse.dropWhile isJsWs).reverse

/-- Model of JavaScript's `String.prototype.trim`. -/
def jsTrim (s : String) : String := String.mk (trimList s.toList)

/-- Count the maximal non-whitespace runs of a character list; the flag says
whether the previous character was inside a word. -/
def countRunsAux : List Char → Bool → ℕ
  | [], _ => 0
  | c :: rest, inWord =>
    if isJsWs c then countRunsAux rest false
    else (if inWord then 0 else 1) + countRunsAux rest true

/-- Model of the source's `countWords`:
`text.trim().split(/\s+/).filter(word => word.length > 0).length`.  On a
trimmed string, splitting on whitespace runs and discarding empty tokens
yields exactly the maximal non-whitespace runs, so the count is the number
of those runs. -/
def countWords (s : String) : ℕ := countRunsAux (trimList s.toList) false

/-- Configured minimum character count (`MIN_CONTENT_LENGTH`). -/
def MIN_CONTENT_LENGTH : ℕ := 20

/-- Configured minimum word count (`MIN_WORD_COUNT`). -/
def MIN_WORD_COUNT : ℕ := 5

/-- Configured default for top-K retrieval (`DEFAULT_TOP_K`). -/
def DEFAULT_TOP_K : ℕ := 9

/-- A document fragment: page of the PDF loader or chunk of the splitter.
Its metadata is the field list of a JavaScript object. -/
structure Doc where
  pageContent : String
  metadata : List (String × Json)

/-- First (page-level) filter predicate of `ingestPDF`:
`trimmedContent.length > MIN_CONTENT_LENGTH && countWords(trimmedContent) >= MIN_WORD_COUNT`. -/
def pageKeep (content : String) : Bool :=
  decide (MIN_CONTENT_LENGTH < (jsTrim content).length) &&
  decide (MIN_WORD_COUNT ≤ countWords (jsTrim content))

/-- Second (post-cleaning) filter predicate of `ingestPDF`:
`doc.pageContent.length > 0 && countWords(doc.pageContent) >= MIN_WORD_COUNT`. -/
def chunkKeep (content : String) : Bool :=
  decide (0 < content.length) && decide (MIN_WORD_COUNT ≤ countWords content)

/-- Page-level filter pass (`data.filter(...)`, lines 81-85). -/
def filterPages (docs : List Doc) : List Doc :=
  docs.filter (fun d => pageKeep d.pageContent)

/-- Post-cleaning filter pass (`cleanedDocs.filter(...)`, line 133). -/
def filterChunks (docs : List Doc) : List Doc :=
  docs.filter (fun d => chunkKeep d.pageContent)

/-- Collapse every run of JavaScript whitespace to a single space
(`replace(/\s+/g, " ")`); the flag records whether the previous character
was whitespace. -/
def collapseWsAux : List Char → Bool → List Char
  | [], _ => []
  | c :: rest, prevWs =>
    if isJsWs c then
      if prevWs then collapseWsAux rest true else ' ' :: collapseWsAux rest true
    else c :: collapseWsAux rest false

/-- Model of `replace(/\s+/g, " ")`. -/
def collapseWs (s : String) : String := String.mk (collapseWsAux s.toList false)

/-- Collapse every run of newlines to a single space; the flag records
whether the previous character was a newline. -/
def collapseNlAux : List Char → Bool → List Char
  | [], _ => []
  | c :: rest, prevNl =>
    if c = '\n' then
      if prevNl then collapseNlAux rest true else ' ' :: collapseNlAux rest true
    else c :: collapseNlAux rest false

/-- Model of `replace(/\n+/g, " ")`. -/
def collapseNl (s : String) : String := String.mk (collapseNlAux s.toList false)

/-- Allow-list of the cleaning step: printable ASCII, LF, CR and the
Arabic-script ranges.  A code point outside the list is removed.  (The
source operates on UTF-16 units without the `u` flag; for the removal
decision this coincides with code points, since every astral code point and
both its surrogate halves are outside the list.) -/
def allowedChar (c : Char) : Bool :=
  (0x20 ≤ c.toNat && c.toNat ≤ 0x7e) || c = '\n' || c = '\r' ||
  (0x600 ≤ c.toNat && c.toNat ≤ 0x6ff) || (0x750 ≤ c.toNat && c.toNat ≤ 0x77f) ||
  (0x8a0 ≤ c.toNat && c.toNat ≤ 0x8ff) || (0xfb50 ≤ c.toNat && c.toNat ≤ 0xfdff) ||
  (0xfe70 ≤ c.toNat && c.toNat ≤ 0xfeff)

/-- Model of `replace(/[^ allow-list ]/g, "")`. -/
def stripDisallowed (s : String) : String := String.mk (s.toList.filter allowedChar)

/-- Cleaning transform of `ingestPDF` (lines 117-123), in the source's
order: collapse whitespace runs, collapse newline runs, trim, then strip
characters outside the allow-list. -/
def cleanText (s : String) : String :=
  stripDisallowed (jsTrim (collapseNl (collapseWs s)))

/-- Decimal rendering of a natural number, as JavaScript renders an integer
index in a template literal. -/
def natToString (n : ℕ) : String :=
  if n = 0 then "0" else String.mk (((Nat.digits 10 n).map Nat.digitChar).reverse)

/-- Metadata stamping of the cleaning step:
`{ ...d.metadata, chunkIndex: i, source: d.metadata?.source ?? "" }`.
`??` replaces both an absent and a `null` value. -/
def stampMeta (md : List (String × Json)) (i : ℕ) : List (String × Json) :=
  upsert (upsert md "chunkIndex" (.num i)) "source"
    (match md.lookup "source" with
      | some .null => .str ""
      | some v => v
      | none => .str "")

/-- Cleaning map of `ingestPDF` (lines 115-130): clean every chunk's text
and stamp `chunkIndex` and `source`. -/
def cleanDocs (docs : List Doc) : List Doc :=
  docs.enum.map (fun p => ⟨cleanText p.2.pageContent, stampMeta p.2.metadata p.1⟩)

/-- An embedding record as assembled before writing (lines 154-159).  The
embedding is `none` when `vectors[index]` is out of range (`undefined`), in
which case `JSON.stringify` omits the key. -/
structure EmbRecord where
  id : String
  text : String
  embedding : Option (List ℚ)
  metadata : List (String × Json)

/-- Serialize one record the way `JSON.stringify` lays out the object
literal `{ id, text, embedding, metadata }`. -/
def writeRecord (r : EmbRecord) : Json :=
  .obj ([("id", .str r.id), ("text", .str r.text)] ++
    (match r.embedding with
      | some v => [("embedding", .arr (v.map .num))]
      | none => []) ++
    [("metadata", .obj r.metadata)])

/-- Serialize the store: a JSON array of the records in order. -/
def writeStore (rs : List EmbRecord) : Json := .arr (rs.map writeRecord)

/-- Record assembly (lines 154-159): `id = "chunk-" + index`, pairing each
survivor with its vector by position. -/
def assemble (docs : List Doc) (vectors : List (List ℚ)) : List EmbRecord :=
  docs.enum.map (fun p =>
    ⟨"chunk-" ++ natToString p.1, p.2.pageContent, vectors[p.1]?, p.2.metadata⟩)

/-- Ingestion pipeline `ingestPDF`, with the external services as
parameters: `pages` is what the PDF loader returned, `split` is the text
splitter, `embed` the embedding service.  The result is the JSON tree
written to the output file. -/
def ingestModel (pages : List Doc) (split : List Doc → List Doc)
    (embed : List String → List (List ℚ)) : Json :=
  let filteredDocs := filterPages pages
  if filteredDocs.length = 0 then .arr []
  else
    let docs := split filteredDocs
    if docs.length = 0 then .arr []
    else
      let finalDocs := filterChunks (cleanDocs docs)
      if finalDocs.length = 0 then .arr []
      else writeStore (assemble finalDocs (embed (finalDocs.map Doc.pageContent)))

/-- Accumulation step of the `cosine` loop: dot product and the two squared
magnitudes, each element passing through `Number(x) || 0`. -/
def cosStep (acc : ℚ × ℚ × ℚ) (p : JsNum × JsNum) : ℚ × ℚ × ℚ :=
  (acc.1 + numOr0 p.1 * numOr0 p.2,
   acc.2.1 + numOr0 p.1 * numOr0 p.1,
   acc.2.2 + numOr0 p.2 * numOr0 p.2)

/-- The `for` loop of `cosine` over `i < min(a.length, b.length)`. -/
def cosAcc (a b : List JsNum) : ℚ × ℚ × ℚ := (a.zip b).foldl cosStep (0, 0, 0)

/-- Model of `cosine` (lines 17-36).  A `none` argument is a non-array.
The accumulator is exact rational; the result is real because of
`Math.sqrt`, which is why this definition (alone with the ranking built on
it) is noncomputable: an exact real square root has no executable Lean
representation.  The executable core `cosAcc` carries all the data. -/
noncomputable def cosine : Option (List JsNum) → Option (List JsNum) → ℝ
  | some a, some b =>
    if min a.length b.length = 0 then 0
    else
      let t := cosAcc a b
      if t.2.1 = 0 ∨ t.2.2 = 0 then 0
      else (t.1 : ℝ) / (Real.sqrt t.2.1 * Real.sqrt t.2.2)
  | _, _ => 0

/-- One record as produced by `loadEmbeddings`: raw `id` and `text` fields
(`none` = absent = `undefined`), the coerced embedding, and the metadata
after the possible `JSON.parse`. -/
structure StoredItem where
  id : Option Json
  embedding : List JsNum
  text : Option Json
  metadata : Option Json

/-- Value of `(item.embedding || []).map((v) => Number(v))`: an absent or
falsy field gives `[]`; an array maps element-wise through `Number`; a
truthy non-array has no `.map` method and throws. -/
def embField : Option Json → Except String (List JsNum)
  | none => .ok []
  | some v =>
    if jsTruthy v = false then .ok []
    else
      match v with
      | .arr l => .ok (l.map jsNumber)
      | _ => .error "TypeError: no map method"

/-- Value of `typeof item.metadata === "string" ? JSON.parse(item.metadata) : item.metadata`. -/
def metaField : Option Json → Except String (Option Json)
  | some (.str s) => (jsonParse s).map some
  | x => .ok x

/-- Read one element of the store array.  A `null` element throws on the
first property access; a non-object non-null element has only `undefined`
fields.  Field evaluation order follows the object literal: the embedding
coercion runs before the metadata parse. -/
def loadItem : Json → Except String StoredItem
  | .null => .error "TypeError: null element"
  | .obj fields => do
    let emb ← embField (fields.lookup "embedding")
    let md ← metaField (fields.lookup "metadata")
    .ok ⟨fields.lookup "id", emb, fields.lookup "text", md⟩
  | _ => .ok ⟨none, [], none, none⟩

/-- Model of `loadEmbeddings` (lines 170-189) on the parsed store file:
`embeddingsData.map(...)` with any element exception aborting the call; a
non-array top level has no `.map` and throws. -/
def loadEmb : Json → Except String (List StoredItem)
  | .arr l => l.mapM loadItem
  | _ => .error "TypeError: no map method on store"

/-- A scored record, one element of `sims`. -/
structure SimRec where
  id : Option Json
  score : ℝ
  text : Option Json
  metadata : Option Json

/-- Model of `items.filter((it) => Array.isArray(it.embedding) && it.embedding.length > 0)`:
after `loadEmbeddings` every embedding is an array, so the test is on its
length. -/
def validItems (items : List StoredItem) : List StoredItem :=
  items.filter (fun it => decide (0 < it.embedding.length))

/-- Scoring step of `queryEmbeddings`: one `SimRec` per valid item, scored
against the query vector. -/
noncomputable def scoreItems (q : List JsNum) (items : List StoredItem) : List SimRec :=
  (validItems items).map
    (fun it => ⟨it.id, cosine (some q) (some it.embedding), it.text, it.metadata⟩)

/-- Stable insertion into a list sorted by descending score: the new record
goes after every strictly higher score and, among equal scores, after the
entries already present (which were originally earlier). This is
`Array.prototype.sort` — stable by specification — with the comparator
`(a, b) => b.score - a.score`. -/
noncomputable def insertDesc (a : SimRec) : List SimRec → List SimRec
  | [] => [a]
  | b :: l => if b.score ≤ a.score then a :: b :: l else b :: insertDesc a l

/-- Stable descending sort by score (`sims.sort((a, b) => b.score - a.score)`). -/
noncomputable def sortByScoreDesc : List SimRec → List SimRec
  | [] => []
  | a :: l => insertDesc a (sortByScoreDesc l)

/-- Full ranking of `queryEmbeddings`: score every valid record, then
stable-sort by descending score. -/
noncomputable def queryRank (q : List JsNum) (items : List StoredItem) : List SimRec :=
  sortByScoreDesc (scoreItems q items)

/-- Top-K selection, `sims.slice(0, TOP_K)`. -/
noncomputable def queryTop (topK : ℕ) (q : List JsNum) (items : List StoredItem) :
    List SimRec :=
  (queryRank q items).take topK

mutual

/-- String conversion of a JSON value in a template literal; the flag marks
an array element (where `null` renders empty).  Decimal rendering of a
number — a float-formatting concern — is the parameter `fmtN`. -/
def jsShowVal (fmtN : ℚ → String) : Json → Bool → String
  | .null, true => ""
  | .null, false => "null"
  | .bool b, _ => if b then "true" else "false"
  | .num q, _ => fmtN q
  | .str s, _ => s
  | .arr l, _ => jsShowList fmtN l
  | .obj _, _ => "[object Object]"

/-- Comma-joined rendering of an array in a template literal. -/
def jsShowList (fmtN : ℚ → String) : List Json → String
  | [] => ""
  | [x] => jsShowVal fmtN x true
  | x :: xs => jsShowVal fmtN x true ++ "," ++ jsShowList fmtN xs

end

/-- Template-literal rendering of a possibly-`undefined` value. -/
def jsShowOpt (fmtN : ℚ → String) : Option Json → String
  | none => "undefined"
  | some v => jsShowVal fmtN v false

/-- Context assembly (lines 246-248): labeled blocks joined by blank lines,
in ranked order.  `fmtS` is `toFixed(4)`, a float-formatting concern kept
as a parameter. -/
noncomputable def ctxString (fmtS : ℝ → String) (fmtN : ℚ → String)
    (top : List SimRec) : String :=
  String.intercalate "\n\n" (top.enum.map (fun p =>
    "---chunk " ++ natToString (p.1 + 1) ++ " (id=" ++ jsShowOpt fmtN p.2.id ++
    ", score=" ++ fmtS p.2.score ++ ")---\n" ++ jsShowOpt fmtN p.2.text))

/-- The fixed instruction prompt of `queryEmbeddings` (lines 252-260). -/
def promptFor (context question : String) : String :=
  "You are a helpful assistant. Use the following context to answer the user\x27s question thoroughly and in detail. If the answer is not contained in the context, say you don\x27t know.\n\nCONTEXT:\n" ++
  context ++ "\n\nQUESTION:\n" ++ question ++ "\n\n"

/-- Observable outcome of `queryEmbeddings`: the number of skipped records,
the selected top records, the context string, and the prompt handed to the
chat model.  Reaching a `QueryOut` is reaching the `llm.invoke` call. -/
structure QueryOut where
  skipped : ℕ
  top : List SimRec
  context : String
  prompt : String

/-- Model of `queryEmbeddings` (lines 192-264) up to the chat-model call:
load the store, validate the query embedding (`none` = non-array), rank,
slice, and build context and prompt. -/
noncomputable def queryModel (fmtS : ℝ → String) (fmtN : ℚ → String) (topK : ℕ)
    (question : String) (qEmb : Option (List JsNum)) (store : Json) :
    Except String QueryOut := do
  let items ← loadEmb store
  match qEmb with
  | none => .error "Failed to compute query embedding"
  | some q =>
    if q.length = 0 then .error "Failed to compute query embedding"
    else
      let top := queryTop topK q items
      let context := ctxString fmtS fmtN top
      .ok ⟨items.length - (validItems items).length, top, context,
        promptFor context question⟩

/-- Dot product of two vectors over their common prefix, with the
`Number(x) || 0` coercion: the specification-side description of the
cosine loop's first accumulator. -/
def dotSpec (a b : List JsNum) : ℚ :=
  (List.zipWith (fun x y => numOr0 x * numOr0 y) a b).sum

/-- Squared magnitude of the first `n` entries of a vector, with the
`Number(x) || 0` coercion: the specification-side description of the
cosine loop's norm accumulators (with `n` the other vector's length). -/
def magSq (a : List JsNum) (n : ℕ) : ℚ :=
  ((a.take n).map (fun x => numOr0 x * numOr0 x)).sum

lemma dropWhile_idem (p : Char → Bool) (l : List Char) :
    (l.dropWhile p).dropWhile p = l.dropWhile p := by
  induction l with
  | nil => rfl
  | cons c t ih =>
    by_cases h : p c
    · simp [List.dropWhile_cons, h, ih]
    · simp [List.dropWhile_cons, h]

lemma dropWhile_reverse_dropWhile (p : Char → Bool) (f : List Char)
    (hf : f.dropWhile p = f) :
    ((f.reverse.dropWhile p).reverse).dropWhile p = (f.reverse.dropWhile p).reverse := by
  obtain ⟨w, hf2⟩ : ∃ w, (List.dropWhile p f.reverse).reverse ++ w = f :=
    ⟨(List.takeWhile p f.reverse).reverse, by
      rw [← List.reverse_append, List.takeWhile_append_dropWhile, List.reverse_reverse]⟩
  cases hk2 : (f.reverse.dropWhile p).reverse with
  | nil => simp
  | cons c t =>
    rw [hk2] at hf2
    have hfc : f = c :: (t ++ w) := by rw [← hf2, List.cons_append]
    have hpc : p c = false := by
      by_contra hp
      have hp2 : p c = true := by simpa using hp
      have h1 : List.dropWhile p f = List.dropWhile p (t ++ w) := by
        conv_lhs => rw [hfc]
        rw [List.dropWhile_cons]
        simp [hp2]
      have h2 : (List.dropWhile p (t ++ w)).length ≤ (t ++ w).length :=
        (List.dropWhile_sublist _).length_le
      have h3 : f.length = (t ++ w).length + 1 := by rw [hfc]; simp
      rw [hf] at h1
      have h4 := congrArg List.length h1
      omega
    rw [List.dropWhile_cons]
    simp [hpc]

lemma trimList_idem (l : List Char) : trimList (trimList l) = trimList l := by
  unfold trimList
  have hff : (l.dropWhile isJsWs).dropWhile isJsWs = l.dropWhile isJsWs :=
    dropWhile_idem _ _
  have hk1 := dropWhile_reverse_dropWhile isJsWs (l.dropWhile isJsWs) hff
  rw [hk1, List.reverse_reverse, dropWhile_idem]

lemma toList_jsTrim (s : String) : (jsTrim s).toList = trimList s.toList := rfl

lemma countWords_jsTrim (s : String) : countWords (jsTrim s) = countWords s := by
  unfold countWords
  rw [toList_jsTrim, trimList_idem]

lemma trimList_length_le (l : List Char) : (trimList l).length ≤ l.length := by
  unfold trimList
  have h1 : ((l.dropWhile isJsWs).reverse.dropWhile isJsWs).length ≤
      (l.dropWhile isJsWs).reverse.length := (List.dropWhile_sublist _).length_le
  have h2 : (l.dropWhile isJsWs).length ≤ l.length := (List.dropWhile_sublist _).length_le
  simpa using le_trans (by simpa using h1) h2

lemma jsTrim_length_le (s : String) : (jsTrim s).length ≤ s.length := by
  have h := trimList_length_le s.toList
  show (String.mk (trimList s.toList)).length ≤ s.length
  rw [String.length_mk]
  exact h

/-- Claim C7: the page-level filter boundary is strict on length and
non-strict on words: a fragment whose trimmed text has exactly 20
characters is rejected whatever its word count, while one with 21 trimmed
characters and 5 words is accepted (`countWords` splits on whitespace runs
and discards empty tokens, and is insensitive to the outer trim). -/
theorem pageKeep_boundary :
    (∀ s : String, (jsTrim s).length = 20 → pageKeep s = false) ∧
    (∀ s : String, (jsTrim s).length = 21 → countWords s = 5 → pageKeep s = true) := by
  constructor
  · intro s h
    unfold pageKeep MIN_CONTENT_LENGTH
    rw [h]
    simp
  · intro s h hw
    unfold pageKeep MIN_CONTENT_LENGTH MIN_WORD_COUNT
    rw [h, countWords_jsTrim s, hw]
    rfl

/-- Witness for C7: a 20-character 5-word fragment is rejected and a
21-character 5-word fragment is accepted, on concrete strings. -/
theorem pageKeep_boundary_w :
    ((jsTrim "aa aa aa aa aaaaaaaa").length = 20 ∧ pageKeep "aa aa aa aa aaaaaaaa" = false) ∧
    ((jsTrim "abc abc abc abc abcde").length = 21 ∧ countWords "abc abc abc abc abcde" = 5 ∧
      pageKeep "abc abc abc abc abcde" = true) :=
  ⟨⟨by decide, pageKeep_boundary.1 _ (by decide)⟩,
   ⟨by decide, by decide, pageKeep_boundary.2 _ (by decide) (by decide)⟩⟩

lemma collapseWsAux_chars : ∀ (l : List Char) (b : Bool) (c : Char),
    c ∈ collapseWsAux l b → c = ' ' ∨ isJsWs c = false := by
  intro l
  induction l with
  | nil => intro b c h; simp [collapseWsAux] at h
  | cons a t ih =>
    intro b c h
    unfold collapseWsAux at h
    by_cases ha : isJsWs a
    · rw [if_pos ha] at h
      cases b with
      | true => exact ih true c (by simpa using h)
      | false =>
        rcases List.mem_cons.mp (by simpa using h) with h1 | h2
        · exact Or.inl h1
        · exact ih true c h2
    · rw [if_neg ha] at h
      rcases List.mem_cons.mp h with h1 | h2
      · subst h1; exact Or.inr (by simpa using ha)
      · exact ih false c h2

lemma collapseNlAux_id : ∀ (l : List Char), (∀ c ∈ l, c ≠ '\n') →
    collapseNlAux l false = l := by
  intro l
  induction l with
  | nil => intro _; rfl
  | cons a t ih =>
    intro h
    have ha : a ≠ '\n' := h a (List.mem_cons_self a t)
    unfold collapseNlAux
    rw [if_neg ha]
    rw [ih (fun c hc => h c (List.mem_cons_of_mem a hc))]

lemma collapseNl_collapseWs (s : String) : collapseNl (collapseWs s) = collapseWs s := by
  unfold collapseNl collapseWs
  congr 1
  apply collapseNlAux_id
  intro c hc hcn
  rcases collapseWsAux_chars _ _ _ hc with h | h
  · rw [h] at hcn; exact absurd hcn (by decide)
  · rw [hcn] at h; exact absurd h (by decide)

/-- Claim C8: the cleaning transform is exactly: collapse every whitespace
run (including newlines) to a single space, trim, then strip every
character outside the allow-list (printable ASCII, LF, CR, and the
Arabic-script ranges); the source's intermediate newline-collapsing pass is
a no-op because the whitespace pass has already removed every newline.  In
particular the example string cleans to `"Hello world !"` and an emoji code
point is stripped entirely. -/
theorem cleanText_spec :
    (∀ s : String, cleanText s = stripDisallowed (jsTrim (collapseWs s))) ∧
    cleanText "Hello\n\n  world\t\t!" = "Hello world !" ∧
    cleanText "😀" = "" := by
  refine ⟨fun s => ?_, by decide, by decide⟩
  unfold cleanText
  rw [collapseNl_collapseWs]

/-- Claim C6: when zero fragments survive at any of the three checkpoints
(page-level filter, chunking, post-cleaning filter), ingestion writes
exactly the empty JSON array and returns normally. -/
theorem ingest_empty_checkpoints (pages : List Doc) (split : List Doc → List Doc)
    (embed : List String → List (List ℚ))
    (h : filterPages pages = [] ∨ split (filterPages pages) = [] ∨
      filterChunks (cleanDocs (split (filterPages pages))) = []) :
    ingestModel pages split embed = Json.arr [] := by
  rcases h with h | h | h <;> simp [ingestModel, h]

/-- Witness for C6: ingesting a PDF with no extractable pages writes `[]`. -/
theorem ingest_empty_checkpoints_w :
    filterPages [] = [] ∧
    ingestModel [] (fun d => d) (fun _ => []) = Json.arr [] :=
  ⟨rfl, ingest_empty_checkpoints [] (fun d => d) (fun _ => []) (Or.inl rfl)⟩

/-- Counterexample to C1: the cleaned chunk `"a b c d e"` (9 trimmed
characters, 5 words) is kept by the second filter pass, yet the claimed
predicate — the page-level one, trimmed length strictly above 20 — rejects
it, so the two checkpoints do not apply the same predicate. -/
theorem filterChunks_keeps_short_chunk :
    filterChunks [⟨"a b c d e", []⟩] = [⟨"a b c d e", []⟩] ∧
    pageKeep "a b c d e" = false :=
  ⟨rfl, by decide⟩

/-- Claim C1 (amended): the two checkpoints use different predicates.  The
page-level pass keeps a fragment iff its trimmed length exceeds 20 and its
word count is at least 5; the post-cleaning pass keeps a cleaned chunk iff
its (untrimmed) text is non-empty — threshold 0, not 20 — and its word
count is at least 5.  The second predicate is weaker: everything the
page-level predicate accepts, the post-cleaning predicate accepts. -/
theorem filter_passes_spec :
    (∀ (docs : List Doc) (d : Doc), d ∈ filterPages docs ↔
      d ∈ docs ∧ MIN_CONTENT_LENGTH < (jsTrim d.pageContent).length ∧
        MIN_WORD_COUNT ≤ countWords (jsTrim d.pageContent)) ∧
    (∀ (docs : List Doc) (d : Doc), d ∈ filterChunks docs ↔
      d ∈ docs ∧ 0 < d.pageContent.length ∧
        MIN_WORD_COUNT ≤ countWords d.pageContent) ∧
    (∀ s : String, pageKeep s = true → chunkKeep s = true) := by
  refine ⟨fun docs d => ?_, fun docs d => ?_, fun s h => ?_⟩
  · rw [filterPages, List.mem_filter]
    simp [pageKeep, and_assoc]
  · rw [filterChunks, List.mem_filter]
    simp [chunkKeep, and_assoc]
  · have h2 := h
    rw [pageKeep, Bool.and_eq_true, decide_eq_true_iff, decide_eq_true_iff] at h2
    obtain ⟨hl, hw⟩ := h2
    rw [countWords_jsTrim] at hw
    have h3 : 0 < s.length := by
      have := jsTrim_length_le s
      unfold MIN_CONTENT_LENGTH at hl
      omega
    rw [chunkKeep, Bool.and_eq_true, decide_eq_true_iff, decide_eq_true_iff]
    exact ⟨h3, hw⟩

/-- Witness for C1 (amended): a concrete fragment passing the page-level
predicate also passes the post-cleaning predicate. -/
theorem filter_passes_spec_w :
    pageKeep "abc abc abc abc abcde" = true ∧
    chunkKeep "abc abc abc abc abcde" = true :=
  ⟨by decide, filter_passes_spec.2.2 _ (by decide)⟩

lemma digitChar_inj_lt : ∀ a, a < 10 → ∀ b, b < 10 →
    Nat.digitChar a = Nat.digitChar b → a = b := by decide

lemma map_digitChar_inj : ∀ (l1 l2 : List ℕ), (∀ x ∈ l1, x < 10) → (∀ x ∈ l2, x < 10) →
    l1.map Nat.digitChar = l2.map Nat.digitChar → l1 = l2 := by
  intro l1
  induction l1 with
  | nil => intro l2 _ _ h; cases l2 with
    | nil => rfl
    | cons b t => simp at h
  | cons a t ih =>
    intro l2 h1 h2 h
    cases l2 with
    | nil => simp at h
    | cons b u =>
      simp only [List.map_cons, List.cons.injEq] at h
      have ha : a < 10 := h1 a (List.mem_cons_self a t)
      have hb : b < 10 := h2 b (List.mem_cons_self b u)
      have hab : a = b := digitChar_inj_lt a ha b hb h.1
      have ht : t = u := ih u (fun x hx => h1 x (List.mem_cons_of_mem a hx))
        (fun x hx => h2 x (List.mem_cons_of_mem b hx)) h.2
      rw [hab, ht]

lemma digits_len_one {n : ℕ} (hlen : (Nat.digits 10 n).length = 1) :
    ∃ d, Nat.digits 10 n = [d] := by
  cases hds : Nat.digits 10 n with
  | nil => rw [hds] at hlen; simp at hlen
  | cons d u =>
    rw [hds] at hlen
    simp at hlen
    exact ⟨d, by rw [hlen]⟩

lemma zero_string_not_digits {n : ℕ} (hn : n ≠ 0)
    (hdata : ['0'] = ((Nat.digits 10 n).map Nat.digitChar).reverse) : False := by
  have hlen : (Nat.digits 10 n).length = 1 := by
    have := congrArg List.length hdata
    simpa using this.symm
  obtain ⟨d, hd⟩ := digits_len_one hlen
  rw [hd] at hdata
  simp at hdata
  have hd10 : d < 10 := Nat.digits_lt_base (by norm_num)
    (by rw [hd]; exact List.mem_singleton_self d)
  have hd0 : d = 0 := digitChar_inj_lt d hd10 0 (by norm_num) hdata.symm
  have hnd : n = d := by
    have h2 := congrArg (Nat.ofDigits 10) hd
    rw [Nat.ofDigits_digits] at h2
    simpa [Nat.ofDigits] using h2
  exact hn (by rw [hnd, hd0])

lemma natToString_inj : Function.Injective natToString := by
  intro m n h
  unfold natToString at h
  by_cases hm : m = 0 <;> by_cases hn : n = 0
  · rw [hm, hn]
  · rw [if_pos hm, if_neg hn] at h
    exact absurd (congrArg String.data h) (fun hc => zero_string_not_digits hn hc)
  · rw [if_neg hm, if_pos hn] at h
    exact absurd (congrArg String.data h.symm) (fun hc => zero_string_not_digits hm hc)
  · rw [if_neg hm, if_neg hn] at h
    have hdata : ((Nat.digits 10 m).map Nat.digitChar).reverse =
        ((Nat.digits 10 n).map Nat.digitChar).reverse := congrArg String.data h
    have hmap := List.reverse_injective hdata
    have hdig : Nat.digits 10 m = Nat.digits 10 n :=
      map_digitChar_inj _ _ (fun x hx => Nat.digits_lt_base (by norm_num) hx)
        (fun x hx => Nat.digits_lt_base (by norm_num) hx) hmap
    have h2 := congrArg (Nat.ofDigits 10) hdig
    rwa [Nat.ofDigits_digits, Nat.ofDigits_digits] at h2

lemma chunkId_inj : Function.Injective (fun i : ℕ => "chunk-" ++ natToString i) := by
  intro m n h
  have hd := congrArg String.data h
  rw [String.data_append, String.data_append] at hd
  exact natToString_inj (congrArg String.mk (List.append_cancel_left hd))

lemma map_enum_fst {α β : Type} (l : List α) (g : ℕ → β) :
    l.enum.map (fun p => g p.1) = (List.range l.length).map g := by
  rw [List.enum_eq_zip_range]
  have h1 : ((List.range l.length).zip l).map (fun p => g p.1) =
      (((List.range l.length).zip l).map Prod.fst).map g := by
    rw [List.map_map]; rfl
  rw [h1, List.map_fst_zip _ _ (by simp)]

/-- Claim C9: the assembled store ids are exactly `chunk-0 .. chunk-(N-1)`
in order — dense and (by injectivity of decimal rendering) unique — and
each survivor is paired with its embedding vector by position. -/
theorem assemble_ids_spec (docs : List Doc) (vectors : List (List ℚ)) :
    (assemble docs vectors).map EmbRecord.id =
      (List.range docs.length).map (fun i => "chunk-" ++ natToString i) ∧
    ((assemble docs vectors).map EmbRecord.id).Nodup ∧
    (assemble docs vectors).map EmbRecord.embedding =
      (List.range docs.length).map (fun i => vectors[i]?) := by
  have hids : (assemble docs vectors).map EmbRecord.id =
      (List.range docs.length).map (fun i => "chunk-" ++ natToString i) := by
    unfold assemble
    rw [List.map_map]
    exact map_enum_fst docs (fun i => "chunk-" ++ natToString i)
  refine ⟨hids, ?_, ?_⟩
  · rw [hids]
    exact (List.nodup_range _).map chunkId_inj
  · unfold assemble
    rw [List.map_map]
    exact map_enum_fst docs (fun i => vectors[i]?)

lemma mapM_ok_pointwise {α β : Type} (f : α → Except String β) :
    ∀ (l : List α) (out : List β), l.mapM f = .ok out →
      out.length = l.length ∧ ∀ i, ∀ h1 : i < l.length, ∀ h2 : i < out.length,
        f (l.get ⟨i, h1⟩) = .ok (out.get ⟨i, h2⟩) := by
  intro l
  induction l with
  | nil =>
    intro out h
    rw [List.mapM_nil] at h
    have hout : [] = out := by simpa [pure, Except.pure] using h
    subst hout
    exact ⟨rfl, fun i h1 => absurd h1 (by simp)⟩
  | cons a t ih =>
    intro out h
    rw [List.mapM_cons] at h
    cases hfa : f a with
    | error e =>
      rw [hfa] at h
      simp only [Bind.bind, Except.bind, Functor.map, Except.map, pure, Except.pure] at h
      exact absurd h (by simp)
    | ok b =>
      rw [hfa] at h
      cases hmt : t.mapM f with
      | error e =>
        rw [hmt] at h
        simp only [Bind.bind, Except.bind, Functor.map, Except.map, pure, Except.pure] at h
        exact absurd h (by simp)
      | ok bs =>
        rw [hmt] at h
        simp only [Bind.bind, Except.bind, Functor.map, Except.map, pure, Except.pure] at h
        have hout : b :: bs = out := by simpa using h
        subst hout
        obtain ⟨hlen, hpt⟩ := ih bs hmt
        refine ⟨by simp [hlen], fun i h1 h2 => ?_⟩
        cases i with
        | zero => simpa using hfa
        | succ n =>
          have hn1 : n < t.length := by simpa using h1
          have hn2 : n < bs.length := by simpa using h2
          simpa using hpt n hn1 hn2

lemma loadItem_obj_spec (fields : List (String × Json)) (item : StoredItem)
    (h : loadItem (.obj fields) = .ok item) :
    (fields.lookup "embedding" = none → item.embedding = []) ∧
    (∀ el, fields.lookup "embedding" = some (.arr el) →
      item.embedding = el.map jsNumber) ∧
    (∀ s, fields.lookup "metadata" = some (.str s) →
      ∃ m, jsonParse s = .ok m ∧ item.metadata = some m) := by
  simp only [loadItem] at h
  cases hemb : embField (fields.lookup "embedding") with
  | error e =>
    rw [hemb] at h
    simp only [Bind.bind, Except.bind] at h
    exact absurd h (by simp)
  | ok emb =>
    cases hmd : metaField (fields.lookup "metadata") with
    | error e =>
      rw [hemb, hmd] at h
      simp only [Bind.bind, Except.bind] at h
      exact absurd h (by simp)
    | ok md =>
      rw [hemb, hmd] at h
      simp only [Bind.bind, Except.bind] at h
      have hit : (⟨fields.lookup "id", emb, fields.lookup "text", md⟩ : StoredItem) = item := by
        simpa using h
      refine ⟨fun hl => ?_, fun el hl => ?_, fun s hl => ?_⟩
      · rw [hl] at hemb
        unfold embField at hemb
        rw [← hit]
        simpa using hemb.symm
      · rw [hl] at hemb
        unfold embField at hemb
        rw [← hit]
        simpa [jsTruthy] using hemb.symm
      · rw [hl] at hmd
        simp only [metaField] at hmd
        cases hp : jsonParse s with
        | error e => rw [hp] at hmd; simp [Except.map] at hmd
        | ok m =>
          rw [hp] at hmd
          simp only [Except.map] at hmd
          refine ⟨m, rfl, ?_⟩
          rw [← hit]
          simpa using hmd.symm

/-- Counterexample to C2: a store element whose `embedding` array contains
a plain object is read back as `NaN` (modelled `none`), not `0`:
`loadEmbeddings` maps entries through bare `Number(v)`, without the `|| 0`
guard that `cosine` applies. -/
theorem loadEmb_nan_counterexample :
    loadEmb (.arr [.obj [("id", .str "chunk-0"), ("embedding", .arr [.obj []]),
        ("text", .str "t")]]) =
      .ok [⟨some (.str "chunk-0"), [none], some (.str "t"), none⟩] ∧
    (none : JsNum) ≠ some 0 :=
  ⟨rfl, by simp⟩

/-- Claim C2 (amended): the reader maps the store array element-wise; for
an element, an absent `embedding` field defaults to the empty sequence, an
array `embedding` is coerced entry-wise by JavaScript `Number` semantics —
under which a non-numeric entry such as an object becomes `NaN`, not `0` —
and a string `metadata` field is parsed as JSON before the record is
returned. -/
theorem loadEmb_read_contract :
    (∀ (l : List Json) (items : List StoredItem), loadEmb (.arr l) = .ok items →
      items.length = l.length ∧ ∀ i, ∀ h1 : i < l.length, ∀ h2 : i < items.length,
        loadItem (l.get ⟨i, h1⟩) = .ok (items.get ⟨i, h2⟩)) ∧
    (∀ fields item, loadItem (.obj fields) = .ok item →
      (fields.lookup "embedding" = none → item.embedding = []) ∧
      (∀ el, fields.lookup "embedding" = some (.arr el) →
        item.embedding = el.map jsNumber) ∧
      (∀ s, fields.lookup "metadata" = some (.str s) →
        ∃ m, jsonParse s = .ok m ∧ item.metadata = some m)) ∧
    (∀ flds, jsNumber (.obj flds) = none) ∧ (∀ q, jsNumber (.num q) = some q) := by
  refine ⟨fun l items h => ?_, loadItem_obj_spec, fun flds => rfl, fun q => rfl⟩
  exact mapM_ok_pointwise loadItem l items h

/-- Witness for C2 (amended): a concrete element with a string `metadata`
field `"null"` is loaded with its metadata parsed as JSON. -/
theorem loadEmb_read_contract_w :
    ∃ m, jsonParse "null" = Except.ok m ∧
      (⟨none, [], none, some Json.null⟩ : StoredItem).metadata = some m :=
  (loadEmb_read_contract.2.1 [("metadata", Json.str "null")]
    ⟨none, [], none, some Json.null⟩ rfl).2.2 "null" rfl

lemma loadItem_writeRecord (r : EmbRecord) (v : List ℚ) (hv : r.embedding = some v) :
    loadItem (writeRecord r) =
      .ok ⟨some (.str r.id), v.map some, some (.str r.text), some (.obj r.metadata)⟩ := by
  unfold writeRecord
  rw [hv]
  simp only [loadItem, List.cons_append, List.nil_append]
  have hlk : List.lookup "embedding"
      [("id", Json.str r.id), ("text", Json.str r.text),
        ("embedding", Json.arr (v.map Json.num)),
        ("metadata", Json.obj r.metadata)] = some (Json.arr (v.map Json.num)) := rfl
  have hmk : List.lookup "metadata"
      [("id", Json.str r.id), ("text", Json.str r.text),
        ("embedding", Json.arr (v.map Json.num)),
        ("metadata", Json.obj r.metadata)] = some (Json.obj r.metadata) := rfl
  rw [hlk, hmk]
  simp only [embField, jsTruthy, metaField]
  simp only [Bind.bind, Except.bind]
  have hmap : (v.map Json.num).map jsNumber = v.map some := by
    rw [List.map_map]
    rfl
  rw [hmap]
  rfl

lemma loadEmb_writeStore (rs : List EmbRecord)
    (h : ∀ r ∈ rs, (r.embedding).isSome = true) :
    loadEmb (writeStore rs) = .ok (rs.map (fun r =>
      ⟨some (.str r.id), (r.embedding.getD []).map some, some (.str r.text),
        some (.obj r.metadata)⟩)) := by
  induction rs with
  | nil => rfl
  | cons r t ih =>
    obtain ⟨v, hv⟩ := Option.isSome_iff_exists.mp (h r (List.mem_cons_self r t))
    have ht := ih (fun x hx => h x (List.mem_cons_of_mem r hx))
    unfold writeStore at ht ⊢
    rw [List.map_cons]
    show (writeRecord r :: t.map writeRecord).mapM loadItem = _
    rw [List.mapM_cons, loadItem_writeRecord r v hv]
    have ht2 : (t.map writeRecord).mapM loadItem = .ok (t.map (fun r =>
        ⟨some (.str r.id), (r.embedding.getD []).map some, some (.str r.text),
          some (.obj r.metadata)⟩)) := ht
    rw [ht2]
    simp only [Bind.bind, Except.bind, pure, Except.pure, List.map_cons]
    rw [hv]
    rfl

/-- Claim C5: writing a store of N records as the ingestion pipeline does
and reading it back with the store reader yields exactly N records whose
`id`, `text` and `embedding` agree with the originals (each embedding
entry comes back as the same rational number, wrapped as a non-`NaN`
JavaScript number). -/
theorem store_roundtrip (rs : List EmbRecord)
    (h : ∀ r ∈ rs, (r.embedding).isSome = true) :
    ∃ items : List StoredItem, loadEmb (writeStore rs) = .ok items ∧
      items.length = rs.length ∧
      ∀ i, ∀ h1 : i < rs.length, ∀ h2 : i < items.length,
        (items.get ⟨i, h2⟩).id = some (.str (rs.get ⟨i, h1⟩).id) ∧
        (items.get ⟨i, h2⟩).text = some (.str (rs.get ⟨i, h1⟩).text) ∧
        (items.get ⟨i, h2⟩).embedding =
          ((rs.get ⟨i, h1⟩).embedding.getD []).map some := by
  refine ⟨_, loadEmb_writeStore rs h, by simp, fun i h1 h2 => ?_⟩
  simp [List.get_eq_getElem, List.getElem_map]

/-- Witness for C5: a concrete two-record store round-trips. -/
theorem store_roundtrip_w :
    ∃ items : List StoredItem,
      loadEmb (writeStore [⟨"chunk-0", "ta", some [1, 2], []⟩,
        ⟨"chunk-1", "tb", some [3], [("source", Json.str "s")]⟩]) = .ok items ∧
      items.length = 2 ∧
      ∀ i, ∀ h1 : i < 2, ∀ h2 : i < items.length,
        (items.get ⟨i, h2⟩).id = some (.str ([⟨"chunk-0", "ta", some [1, 2], []⟩,
          (⟨"chunk-1", "tb", some [3], [("source", Json.str "s")]⟩ : EmbRecord)].get ⟨i, h1⟩).id) ∧
        (items.get ⟨i, h2⟩).text = some (.str ([⟨"chunk-0", "ta", some [1, 2], []⟩,
          (⟨"chunk-1", "tb", some [3], [("source", Json.str "s")]⟩ : EmbRecord)].get ⟨i, h1⟩).text) ∧
        (items.get ⟨i, h2⟩).embedding = (([⟨"chunk-0", "ta", some [1, 2], []⟩,
          (⟨"chunk-1", "tb", some [3], [("source", Json.str "s")]⟩ : EmbRecord)].get ⟨i, h1⟩).embedding.getD []).map some :=
  store_roundtrip _ (by simp)

lemma cosAcc_go : ∀ (a b : List JsNum) (x y z : ℚ),
    (a.zip b).foldl cosStep (x, y, z) =
      (x + dotSpec a b, y + magSq a b.length, z + magSq b a.length) := by
  intro a
  induction a with
  | nil => intro b x y z; simp [dotSpec, magSq]
  | cons a0 as ih =>
    intro b x y z
    cases b with
    | nil => simp [dotSpec, magSq]
    | cons b0 bs =>
      rw [List.zip_cons_cons, List.foldl_cons]
      show ((as.zip bs).foldl cosStep
        (x + numOr0 a0 * numOr0 b0, y + numOr0 a0 * numOr0 a0,
          z + numOr0 b0 * numOr0 b0)) = _
      rw [ih]
      simp only [dotSpec, magSq, List.zipWith_cons_cons, List.sum_cons,
        List.length_cons, List.take_succ_cons, List.map_cons]
      refine Prod.ext ?_ (Prod.ext ?_ ?_) <;> simp <;> ring

lemma cosAcc_eq (a b : List JsNum) :
    cosAcc a b = (dotSpec a b, magSq a b.length, magSq b a.length) := by
  unfold cosAcc
  rw [cosAcc_go]
  simp

/-- Claim C3: `cosine` returns `0` when either input is not a sequence,
when either is empty, or when either magnitude over the common prefix is
exactly `0`; otherwise it returns the dot product over the shorter length
divided by the product of the magnitudes, with non-numeric (`NaN`) elements
coerced to `0` — and in particular `cosine([1,0,0],[1,0])` equals
`cosine([1,0],[1,0])`, which equals `1`. -/
theorem cosine_contract :
    (∀ b, cosine none b = 0) ∧
    (∀ a, cosine a none = 0) ∧
    (∀ b, cosine (some []) (some b) = 0) ∧
    (∀ a, cosine (some a) (some []) = 0) ∧
    (∀ a b : List JsNum, magSq a b.length = 0 ∨ magSq b a.length = 0 →
      cosine (some a) (some b) = 0) ∧
    (∀ a b : List JsNum, magSq a b.length ≠ 0 → magSq b a.length ≠ 0 →
      cosine (some a) (some b) = (dotSpec a b : ℝ) /
        (Real.sqrt (magSq a b.length : ℝ) * Real.sqrt (magSq b a.length : ℝ))) ∧
    cosine (some [some 1, some 0, some 0]) (some [some 1, some 0]) =
      cosine (some [some 1, some 0]) (some [some 1, some 0]) ∧
    cosine (some [some 1, some 0]) (some [some 1, some 0]) = 1 := by
  have hone : cosine (some [some 1, some 0]) (some [some 1, some 0]) = 1 := by
    have h1 : cosAcc [some 1, some 0] [some 1, some 0] = (1, 1, 1) := by
      rw [cosAcc_eq]; norm_num [dotSpec, magSq, numOr0]
    simp [cosine, h1]
  have hshort : cosine (some [some 1, some 0, some 0]) (some [some 1, some 0]) = 1 := by
    have h1 : cosAcc [some 1, some 0, some 0] [some 1, some 0] = (1, 1, 1) := by
      rw [cosAcc_eq]; norm_num [dotSpec, magSq, numOr0]
    simp [cosine, h1]
  refine ⟨fun b => rfl, fun a => ?_, fun b => ?_, fun a => ?_, fun a b h => ?_,
    fun a b h1 h2 => ?_, hshort.trans hone.symm, hone⟩
  · cases a <;> rfl
  · simp [cosine]
  · simp [cosine]
  · by_cases hmin : min a.length b.length = 0
    · simp [cosine, hmin]
    · simp [cosine, hmin, cosAcc_eq, h]
  · have hb : b ≠ [] := by
      intro he
      exact h1 (by simp [he, magSq])
    have ha : a ≠ [] := by
      intro he
      exact h2 (by simp [he, magSq])
    have hmin : ¬ min a.length b.length = 0 := by
      have ha2 : a.length ≠ 0 := fun he => ha (List.length_eq_zero.mp he)
      have hb2 : b.length ≠ 0 := fun he => hb (List.length_eq_zero.mp he)
      omega
    simp only [cosine, cosAcc_eq, if_neg hmin]
    rw [if_neg (by push_neg; exact ⟨h1, h2⟩)]

/-- Witness for C3: concrete vectors of different lengths with a `NaN`
entry evaluate to the truncated dot-over-magnitudes formula. -/
theorem cosine_contract_w :
    magSq [some 3, none] ([some 4] : List JsNum).length ≠ 0 ∧
    magSq [some 4] ([some 3, none] : List JsNum).length ≠ 0 ∧
    cosine (some [some 3, none]) (some [some 4]) =
      (dotSpec [some 3, none] [some 4] : ℝ) /
        (Real.sqrt (magSq [some 3, none] ([some 4] : List JsNum).length : ℝ) *
         Real.sqrt (magSq [some 4] ([some 3, none] : List JsNum).length : ℝ)) :=
  ⟨by norm_num [magSq, numOr0], by norm_num [magSq, numOr0],
    cosine_contract.2.2.2.2.2.1 [some 3, none] [some 4]
      (by norm_num [magSq, numOr0]) (by norm_num [magSq, numOr0])⟩

lemma insertDesc_perm (a : SimRec) (l : List SimRec) : (insertDesc a l).Perm (a :: l) := by
  induction l with
  | nil => exact List.Perm.refl _
  | cons b t ih =>
    unfold insertDesc
    by_cases h : b.score ≤ a.score
    · rw [if_pos h]
    · rw [if_neg h]
      exact (ih.cons b).trans (List.Perm.swap a b t)

lemma sortByScoreDesc_perm (l : List SimRec) : (sortByScoreDesc l).Perm l := by
  induction l with
  | nil => exact List.Perm.refl _
  | cons a t ih => exact (insertDesc_perm a _).trans (ih.cons a)

lemma mem_insertDesc {x a : SimRec} {l : List SimRec} :
    x ∈ insertDesc a l ↔ x = a ∨ x ∈ l := by
  have h := (insertDesc_perm a l).mem_iff (a := x)
  simpa using h

lemma insertDesc_pairwise (a : SimRec) (l : List SimRec)
    (hl : l.Pairwise (fun x y => y.score ≤ x.score)) :
    (insertDesc a l).Pairwise (fun x y => y.score ≤ x.score) := by
  induction l with
  | nil => simp [insertDesc]
  | cons b t ih =>
    rcases List.pairwise_cons.mp hl with ⟨hbt, hts⟩
    unfold insertDesc
    by_cases h : b.score ≤ a.score
    · rw [if_pos h]
      refine List.pairwise_cons.mpr ⟨?_, hl⟩
      intro y hy
      rcases List.mem_cons.mp hy with h1 | h2
      · rw [h1]; exact h
      · exact le_trans (hbt y h2) h
    · rw [if_neg h]
      refine List.pairwise_cons.mpr ⟨?_, ih hts⟩
      intro y hy
      rcases mem_insertDesc.mp hy with h1 | h2
      · rw [h1]; exact (not_le.mp h).le
      · exact hbt y h2

lemma sortByScoreDesc_pairwise (l : List SimRec) :
    (sortByScoreDesc l).Pairwise (fun x y => y.score ≤ x.score) := by
  induction l with
  | nil => simp [sortByScoreDesc]
  | cons a t ih => exact insertDesc_pairwise a _ ih

lemma filter_insertDesc (a : SimRec) (l : List SimRec) (s : ℝ) :
    (insertDesc a l).filter (fun x => decide (x.score = s)) =
      if a.score = s then a :: l.filter (fun x => decide (x.score = s))
      else l.filter (fun x => decide (x.score = s)) := by
  induction l with
  | nil =>
    unfold insertDesc
    by_cases h : a.score = s <;> simp [List.filter, h]
  | cons b t ih =>
    unfold insertDesc
    by_cases hba : b.score ≤ a.score
    · rw [if_pos hba, List.filter_cons]
      by_cases h : a.score = s <;> simp [h]
    · rw [if_neg hba, List.filter_cons, List.filter_cons, ih]
      by_cases h : a.score = s
      · have hbs : ¬ b.score = s := by
          intro he
          exact hba (le_of_eq (he.trans h.symm))
        simp [h, hbs]
      · simp [h]

lemma filter_sortByScoreDesc (l : List SimRec) (s : ℝ) :
    (sortByScoreDesc l).filter (fun x => decide (x.score = s)) =
      l.filter (fun x => decide (x.score = s)) := by
  induction l with
  | nil => rfl
  | cons a t ih =>
    show (insertDesc a (sortByScoreDesc t)).filter _ = _
    rw [filter_insertDesc, List.filter_cons]
    by_cases h : a.score = s <;> simp [h, ih]

lemma sqrt_twentyfive : Real.sqrt 25 = 5 := by
  rw [show (25 : ℝ) = 5 ^ 2 by norm_num, Real.sqrt_sq (by norm_num : (0 : ℝ) ≤ 5)]

lemma cosine_eval (a b : List JsNum) (d na nb : ℚ)
    (hmin : ¬ min a.length b.length = 0) (hacc : cosAcc a b = (d, na, nb))
    (hna : na ≠ 0) (hnb : nb ≠ 0) :
    cosine (some a) (some b) = (d : ℝ) / (Real.sqrt (na : ℝ) * Real.sqrt (nb : ℝ)) := by
  show (if min a.length b.length = 0 then (0 : ℝ) else
    if (cosAcc a b).2.1 = 0 ∨ (cosAcc a b).2.2 = 0 then 0
    else ((cosAcc a b).1 : ℝ) /
      (Real.sqrt ((cosAcc a b).2.1 : ℝ) * Real.sqrt ((cosAcc a b).2.2 : ℝ))) = _
  rw [if_neg hmin, hacc]
  rw [if_neg (show ¬ ((d, na, nb).2.1 = 0 ∨ (d, na, nb).2.2 = 0) from by
    push_neg
    exact ⟨hna, hnb⟩)]

lemma cosine_half :
    cosine (some [some 1, some 0, some 0, some 0])
      (some [some (5/2), some (5/2), some (5/2), some (5/2)]) = 1/2 := by
  rw [cosine_eval _ _ (5/2) 1 25 (by norm_num)
    (by rw [cosAcc_eq]; norm_num [dotSpec, magSq, numOr0]) one_ne_zero (by norm_num)]
  norm_num [Real.sqrt_one, sqrt_twentyfive]

lemma cosine_tenth :
    cosine (some [some 1, some 0, some 0, some 0])
      (some [some (1/2), some (7/2), some (7/2), some (1/2)]) = 1/10 := by
  rw [cosine_eval _ _ (1/2) 1 25 (by norm_num)
    (by rw [cosAcc_eq]; norm_num [dotSpec, magSq, numOr0]) one_ne_zero (by norm_num)]
  norm_num [Real.sqrt_one, sqrt_twentyfive]

lemma cosine_ninetenths :
    cosine (some [some 1, some 0, some 0, some 0])
      (some [some (9/2), some (3/2), some (3/2), some (1/2)]) = 9/10 := by
  rw [cosine_eval _ _ (9/2) 1 25 (by norm_num)
    (by rw [cosAcc_eq]; norm_num [dotSpec, magSq, numOr0]) one_ne_zero (by norm_num)]
  norm_num [Real.sqrt_one, sqrt_twentyfive]

/-- Claim C4: the retrieval pipeline sorts the scored records in descending
score order (stably: records with equal scores keep their original relative
order, expressed by invariance of every equal-score fibre), then selects
exactly the first `min(TOP_K, n)` of them, with `TOP_K` defaulting to 9;
on three stored vectors scoring 0.5, 0.1, 0.9 against the query, the
selection is returned in order 0.9, 0.5, 0.1. -/
theorem query_ranking_spec :
    (∀ (q : List JsNum) (items : List StoredItem),
      (queryRank q items).Perm (scoreItems q items)) ∧
    (∀ (q : List JsNum) (items : List StoredItem),
      (queryRank q items).Pairwise (fun x y => y.score ≤ x.score)) ∧
    (∀ (q : List JsNum) (items : List StoredItem) (s : ℝ),
      (queryRank q items).filter (fun x => decide (x.score = s)) =
        (scoreItems q items).filter (fun x => decide (x.score = s))) ∧
    (∀ (topK : ℕ) (q : List JsNum) (items : List StoredItem),
      queryTop topK q items = (queryRank q items).take topK ∧
      (queryTop topK q items).length = min topK (scoreItems q items).length) ∧
    DEFAULT_TOP_K = 9 ∧
    queryTop 9 [some 1, some 0, some 0, some 0]
      [⟨some (.str "a"), [some (5/2), some (5/2), some (5/2), some (5/2)], none, none⟩,
       ⟨some (.str "b"), [some (1/2), some (7/2), some (7/2), some (1/2)], none, none⟩,
       ⟨some (.str "c"), [some (9/2), some (3/2), some (3/2), some (1/2)], none, none⟩] =
      [⟨some (.str "c"), 9/10, none, none⟩, ⟨some (.str "a"), 1/2, none, none⟩,
       ⟨some (.str "b"), 1/10, none, none⟩] := by
  have hval : validItems
      [⟨some (.str "a"), [some (5/2), some (5/2), some (5/2), some (5/2)], none, none⟩,
       ⟨some (.str "b"), [some (1/2), some (7/2), some (7/2), some (1/2)], none, none⟩,
       ⟨some (.str "c"), [some (9/2), some (3/2), some (3/2), some (1/2)], none, none⟩] =
      [⟨some (.str "a"), [some (5/2), some (5/2), some (5/2), some (5/2)], none, none⟩,
       ⟨some (.str "b"), [some (1/2), some (7/2), some (7/2), some (1/2)], none, none⟩,
       ⟨some (.str "c"), [some (9/2), some (3/2), some (3/2), some (1/2)], none, none⟩] := rfl
  have hmap : scoreItems [some 1, some 0, some 0, some 0]
      [⟨some (.str "a"), [some (5/2), some (5/2), some (5/2), some (5/2)], none, none⟩,
       ⟨some (.str "b"), [some (1/2), some (7/2), some (7/2), some (1/2)], none, none⟩,
       ⟨some (.str "c"), [some (9/2), some (3/2), some (3/2), some (1/2)], none, none⟩] =
      [⟨some (.str "a"), 1/2, none, none⟩, ⟨some (.str "b"), 1/10, none, none⟩,
       ⟨some (.str "c"), 9/10, none, none⟩] := by
    unfold scoreItems
    rw [hval, List.map_cons, List.map_cons, List.map_cons, List.map_nil]
    dsimp only
    rw [cosine_half, cosine_tenth, cosine_ninetenths]
  have hs0 : insertDesc ⟨some (.str "a"), (1/2 : ℝ), none, none⟩
      [⟨some (.str "b"), (1/10 : ℝ), none, none⟩] =
      [⟨some (.str "a"), (1/2 : ℝ), none, none⟩,
       ⟨some (.str "b"), (1/10 : ℝ), none, none⟩] := by
    unfold insertDesc
    rw [if_pos (show (1 : ℝ)/10 ≤ 1/2 from by norm_num)]
  have hs1 : insertDesc ⟨some (.str "b"), (1/10 : ℝ), none, none⟩
      [⟨some (.str "c"), (9/10 : ℝ), none, none⟩] =
      [⟨some (.str "c"), (9/10 : ℝ), none, none⟩,
       ⟨some (.str "b"), (1/10 : ℝ), none, none⟩] := by
    unfold insertDesc
    rw [if_neg (show ¬ ((9 : ℝ)/10 ≤ 1/10) from by norm_num)]
    rfl
  have hs2 : insertDesc ⟨some (.str "a"), (1/2 : ℝ), none, none⟩
      [⟨some (.str "c"), (9/10 : ℝ), none, none⟩,
       ⟨some (.str "b"), (1/10 : ℝ), none, none⟩] =
      [⟨some (.str "c"), (9/10 : ℝ), none, none⟩,
       ⟨some (.str "a"), (1/2 : ℝ), none, none⟩,
       ⟨some (.str "b"), (1/10 : ℝ), none, none⟩] := by
    unfold insertDesc
    rw [if_neg (show ¬ ((9 : ℝ)/10 ≤ 1/2) from by norm_num), hs0]
  refine ⟨fun q items => sortByScoreDesc_perm _,
    fun q items => sortByScoreDesc_pairwise _,
    fun q items s => filter_sortByScoreDesc _ s,
    fun topK q items => ⟨rfl, ?_⟩, rfl, ?_⟩
  · show ((sortByScoreDesc (scoreItems q items)).take topK).length = _
    rw [List.length_take, (sortByScoreDesc_perm (scoreItems q items)).length_eq]
  · show (sortByScoreDesc (scoreItems _ _)).take 9 = _
    rw [hmap]
    show (insertDesc _ (insertDesc _ (insertDesc _ (sortByScoreDesc []))) : List SimRec).take 9 = _
    rw [show (sortByScoreDesc [] : List SimRec) = [] from rfl,
      show insertDesc ⟨some (.str "c"), (9/10 : ℝ), none, none⟩ [] =
        [⟨some (.str "c"), (9/10 : ℝ), none, none⟩] from rfl, hs1, hs2]
    rfl

/-- Claim C10: when the number of valid records (non-empty embedding) in a
loaded store is below `TOP_K` — including an empty store — the query
pipeline does not fail: it selects all valid records, and with none left it
builds an empty context string and still reaches the chat-model invocation
with the prompt built from the empty context. -/
theorem query_small_store (store : Json) (items : List StoredItem) (q : List JsNum)
    (topK : ℕ) (fmtS : ℝ → String) (fmtN : ℚ → String) (question : String)
    (hload : loadEmb store = .ok items) (hq : q ≠ [])
    (hk : (validItems items).length < topK) :
    ∃ out, queryModel fmtS fmtN topK question (some q) store = .ok out ∧
      out.top.length = (validItems items).length ∧
      out.top.Perm (scoreItems q items) ∧
      (items = [] → out.context = "" ∧ out.prompt = promptFor "" question) := by
  have hlen : (scoreItems q items).length = (validItems items).length := by
    unfold scoreItems
    rw [List.length_map]
  have htop : queryTop topK q items = queryRank q items := by
    unfold queryTop
    apply List.take_of_length_le
    show (sortByScoreDesc (scoreItems q items)).length ≤ topK
    rw [(sortByScoreDesc_perm _).length_eq, hlen]
    omega
  refine ⟨⟨items.length - (validItems items).length, queryTop topK q items,
    ctxString fmtS fmtN (queryTop topK q items),
    promptFor (ctxString fmtS fmtN (queryTop topK q items)) question⟩, ?_, ?_, ?_, ?_⟩
  · unfold queryModel
    rw [hload]
    simp only [Bind.bind, Except.bind]
    rw [if_neg (show ¬ q.length = 0 from fun h => hq (List.length_eq_zero.mp h))]
  · show (queryTop topK q items).length = _
    rw [htop]
    show (sortByScoreDesc (scoreItems q items)).length = _
    rw [(sortByScoreDesc_perm _).length_eq, hlen]
  · show (queryTop topK q items).Perm _
    rw [htop]
    exact sortByScoreDesc_perm _
  · intro he
    subst he
    have hempty : queryTop topK q ([] : List StoredItem) = [] := by
      rw [htop]
      rfl
    rw [hempty]
    exact ⟨rfl, rfl⟩

/-- Witness for C10: querying an empty store with the default `TOP_K`
returns normally, selects nothing, and hands the chat model the prompt
with an empty context. -/
theorem query_small_store_w :
    ∃ out, queryModel (fun _ => "s") (fun _ => "n") 9 "why?" (some [some 1])
        (Json.arr []) = .ok out ∧
      out.top.length = (validItems ([] : List StoredItem)).length ∧
      out.top.Perm (scoreItems [some 1] []) ∧
      (([] : List StoredItem) = [] → out.context = "" ∧
        out.prompt = promptFor "" "why?") :=
  query_small_store (Json.arr []) [] [some 1] 9 (fun _ => "s") (fun _ => "n") "why?"
    rfl (by simp) (by decide)
